import Mathlib

/-!
# RMF: register-map framework (`RMF.h`)

A shallow embedding of the header `RMF.h`: the `BRFBase` base with its address
composition and qualified names, the `Block` / `Register` / `Field` hierarchy,
and the mask / extract / insert arithmetic of `Field`.

## Conventions

* The template parameters `AType` and `DType` are one of `uint8_t`, `uint16_t`,
  `uint32_t`, `uint64_t`; here they are given by their bit width (a `Nat`), and
  the concept `ValidAddressOrDataType` says the width is 8, 16, 32 or 64.
* A value of an unsigned type of width `w` is a `Nat` below `2 ^ w`.
* `int` is 32 bits wide (`intBits`).  A value of type `int` is represented by
  its 32-bit pattern in the complement-of-two representation, a `Nat` below
  `2 ^ 32`; `intVal` gives the signed number a pattern stands for.
* C++ evaluates an operand narrower than `int` in `int` (integral promotion):
  `uint8_t` and `uint16_t` operands are computed in `int`, `uint32_t` and
  `uint64_t` operands in their own unsigned type (`promoBits`).
* An expression whose behaviour is undefined in C++ (a shift by at least the
  width of the promoted left operand, signed overflow) evaluates to `none`.
* A pointer that may be null is an `Option`.
-/

namespace RMF

/-! ## Word types -/

/-- The concept `ValidAddressOrDataType`, on bit widths: the type is one of
`uint8_t`, `uint16_t`, `uint32_t`, `uint64_t`. -/
def ValidAddressOrDataType (w : Nat) : Prop :=
  w = 8 ∨ w = 16 ∨ w = 32 ∨ w = 64

instance (w : Nat) : Decidable (ValidAddressOrDataType w) := by
  unfold ValidAddressOrDataType
  infer_instance

/-- Width of the type `int`. -/
def intBits : Nat := 32

/-- Width of the type in which an operand of an unsigned type of width `w` is
computed: `int` when the type is narrower than `int`, the type itself
otherwise. -/
def promoBits (w : Nat) : Nat :=
  if w < intBits then intBits else w

/-- The signed number denoted by the bit pattern `p` of an `int`. -/
def intVal (p : Nat) : Int :=
  if p < 2 ^ (intBits - 1) then (p : Int) else (p : Int) - 2 ^ intBits

/-- The bit pattern of the `int` with value `x` (for `x` in the range of `int`). -/
def intPat (x : Int) : Nat :=
  (x % 2 ^ intBits).toNat

/-- Whether the number `x` is representable in `int`. -/
def inIntRange (x : Int) : Bool :=
  decide (-(2 ^ (intBits - 1)) ≤ x) && decide (x < 2 ^ (intBits - 1))

/-- The sum `a + b` of two `int`s; signed overflow is undefined. -/
def addInt (a b : Nat) : Option Nat :=
  if inIntRange (intVal a + intVal b) then some (intPat (intVal a + intVal b)) else none

/-- The difference `a - b` of two `int`s; signed overflow is undefined. -/
def subInt (a b : Nat) : Option Nat :=
  if inIntRange (intVal a - intVal b) then some (intPat (intVal a - intVal b)) else none

/-- The shift `a << s` in a type of width `bits`: undefined when `s` is not
below the width, otherwise the value congruent to `a * 2 ^ s` modulo
`2 ^ bits`. -/
def shl (bits a s : Nat) : Option Nat :=
  if s < bits then some (a * 2 ^ s % 2 ^ bits) else none

/-- The shift `a >> s` of a non-negative `a` in a type of width `bits`:
undefined when `s` is not below the width. -/
def shr (bits a s : Nat) : Option Nat :=
  if s < bits then some (a / 2 ^ s) else none

/-- The complement `~a` in a type of width `bits`. -/
def bitNot (bits a : Nat) : Nat :=
  2 ^ bits - 1 - a

/-- Conversion of a value computed in the promoted type back to the unsigned
type of width `w`: the low `w` bits. -/
def narrow (w p : Nat) : Nat :=
  p % 2 ^ w

/-- Conversion of an `int` (given by its bit pattern) to the unsigned type of
width `w`: the signed value modulo `2 ^ w`. -/
def ofInt (w p : Nat) : Nat :=
  (intVal p % 2 ^ w).toNat

/-- The sum `a + b` of two operands of the unsigned type of width `w`, computed
in the promoted type: in `int` for a type narrower than `int` (overflow
undefined), modulo `2 ^ w` otherwise. -/
def addPromoted (w a b : Nat) : Option Nat :=
  if w < intBits then addInt a b else some ((a + b) % 2 ^ w)

/-! ## The hierarchy -/

/-- The members of `BRFBase<AType, DType, ParentType>`. -/
structure BRFBase (ParentType : Type) where
  m_parent : Option ParentType
  m_address : Nat
  m_name : String

/-- The constructor `BRFBase::BRFBase(parent, offset, name)`:
`m_address((m_parent ? m_parent->address() : 0) + offset)`, the sum being
computed in the promoted type and converted to `AType`. -/
def BRFBase.ctor {ParentType : Type} (AType : Nat) (address : ParentType → Nat)
    (parent : Option ParentType) (offset : Nat) (name : String) :
    Option (BRFBase ParentType) := do
  let sum ← addPromoted AType (match parent with
    | some p => address p
    | none => 0) offset
  pure ⟨parent, narrow AType sum, name⟩

/-- The struct `Block`, a `BRFBase` whose parent is a `Block`. -/
inductive Block where
  | mk (base : BRFBase Block) : Block

/-- The `BRFBase` part of a `Block`. -/
def Block.base : Block → BRFBase Block
  | .mk b => b

/-- The accessor `parent()` of a `Block`. -/
def Block.parent (b : Block) : Option Block := b.base.m_parent

/-- The accessor `address()` of a `Block`. -/
def Block.address (b : Block) : Nat := b.base.m_address

/-- The accessor `name()` of a `Block`. -/
def Block.name (b : Block) : String := b.base.m_name

/-- The method `fullName()` of a `Block`:
`m_parent->fullName().append(".").append(m_name)` with a parent, `m_name`
without. -/
def Block.fullName : Block → String
  | .mk ⟨some p, _, n⟩ => (p.fullName ++ ".") ++ n
  | .mk ⟨none, _, n⟩ => n

/-- The constructor `Block(parent, offset, name)`. -/
def Block.ctor (AType : Nat) (parent : Option Block) (offset : Nat) (name : String) :
    Option Block :=
  (BRFBase.ctor AType Block.address parent offset name).map Block.mk

/-- The struct `Register`, a `BRFBase` whose parent is a `Block`. -/
structure Register where
  base : BRFBase Block

/-- The accessor `parent()` of a `Register`. -/
def Register.parent (r : Register) : Option Block := r.base.m_parent

/-- The accessor `address()` of a `Register`. -/
def Register.address (r : Register) : Nat := r.base.m_address

/-- The accessor `name()` of a `Register`. -/
def Register.name (r : Register) : String := r.base.m_name

/-- The method `fullName()` of a `Register`. -/
def Register.fullName (r : Register) : String :=
  match r.base.m_parent with
  | some p => (p.fullName ++ ".") ++ r.base.m_name
  | none => r.base.m_name

/-- The constructor `Register(parent, offset, name)`. -/
def Register.ctor (AType : Nat) (parent : Option Block) (offset : Nat) (name : String) :
    Option Register :=
  (BRFBase.ctor AType Block.address parent offset name).map Register.mk

/-- The struct `Field`: a `BRFBase` whose parent is a `Register`, with the bit
offset and the bit size of the field (both `uint8_t`). -/
structure Field where
  base : BRFBase Register
  m_field_offset : Nat
  m_size : Nat

/-- The accessor `parent()` of a `Field`. -/
def Field.parent (f : Field) : Option Register := f.base.m_parent

/-- The accessor `address()` of a `Field`. -/
def Field.address (f : Field) : Nat := f.base.m_address

/-- The accessor `name()` of a `Field`. -/
def Field.name (f : Field) : String := f.base.m_name

/-- The method `fullName()` of a `Field`. -/
def Field.fullName (f : Field) : String :=
  match f.base.m_parent with
  | some p => (p.fullName ++ ".") ++ f.base.m_name
  | none => f.base.m_name

/-- The constructor `Field(parent, offset, size, name)`: the base is built with
the address offset `0`; `offset` and `size` are `uint8_t`. -/
def Field.ctor (AType : Nat) (parent : Option Register) (offset size : Nat) (name : String) :
    Option Field :=
  (BRFBase.ctor AType Register.address parent 0 name).map
    fun b => ⟨b, offset % 2 ^ 8, size % 2 ^ 8⟩

/-- The accessor `offset()` of a `Field`. -/
def Field.offset (f : Field) : Nat := f.m_field_offset

/-- The accessor `size()` of a `Field`. -/
def Field.size (f : Field) : Nat := f.m_size

/-! ## Field arithmetic -/

/-- The method `dataMask()`: `((1 << m_size) - 1)`, computed in `int` (the
literal `1` is an `int`) and converted to `DType`. -/
def Field.dataMask (DType : Nat) (f : Field) : Option Nat := do
  let a ← shl intBits 1 f.m_size
  let b ← subInt a 1
  pure (ofInt DType b)

/-- The method `regMask()`: `dataMask() << m_field_offset`. -/
def Field.regMask (DType : Nat) (f : Field) : Option Nat := do
  let m ← f.dataMask DType
  let x ← shl (promoBits DType) m f.m_field_offset
  pure (narrow DType x)

/-- The method `extract(reg_val)`: `(reg_val >> m_field_offset) & dataMask()`. -/
def Field.extract (DType : Nat) (f : Field) (reg_val : Nat) : Option Nat := do
  let x ← shr (promoBits DType) reg_val f.m_field_offset
  let m ← f.dataMask DType
  pure (narrow DType (x &&& m))

/-- The method `regVal(val)`: `(val & dataMask()) << m_field_offset`. -/
def Field.regVal (DType : Nat) (f : Field) (val : Nat) : Option Nat := do
  let m ← f.dataMask DType
  let x ← shl (promoBits DType) (val &&& m) f.m_field_offset
  pure (narrow DType x)

/-- The method `insert(reg_val, val)`, returning the new value of the
referenced `reg_val`: `reg_val &= ~regMask(); reg_val |= regVal(val);`. -/
def Field.insert (DType : Nat) (f : Field) (reg_val val : Nat) : Option Nat := do
  let m ← f.regMask DType
  let reg_val1 := narrow DType (reg_val &&& bitNot (promoBits DType) m)
  let v ← f.regVal DType val
  pure (narrow DType (reg_val1 ||| v))

/-! ## Construction of a chain of nested blocks -/

/-- The blocks declared one under the other below `b`: each entry of the list
is the offset and the name of a `Block` constructed with the previous block as
parent; the result is the innermost block. -/
def Block.nest (AType : Nat) : Block → List (Nat × String) → Option Block
  | b, [] => some b
  | b, (o, n) :: rest => do
    let c ← Block.ctor AType (some b) o n
    Block.nest AType c rest

/-! ## A declared hierarchy with a wide field -/

/-- The root block `Block<uint32_t, uint64_t> blk(nullptr, 0x1000, "BLK")`. -/
def wideBlock : Block := .mk ⟨none, 0x1000, "BLK"⟩

/-- The register `Register<uint32_t, uint64_t> reg(&blk, 0x10, "REG")`. -/
def wideRegister : Register := ⟨⟨some wideBlock, 0x1010, "REG"⟩⟩

/-- The field `Field<uint32_t, uint64_t> wide(&reg, 0, 40, "WIDE")`: the low
40 bits of a 64-bit register word. -/
def wideField : Field := ⟨⟨some wideRegister, 0x1010, "WIDE"⟩, 0, 40⟩

/-- A second field of the same 64-bit register,
`Field<uint32_t, uint64_t> high(&reg, 40, 24, "HIGH")`: bits 40 to 63, next to
the wide field. -/
def highField : Field := ⟨⟨some wideRegister, 0x1010, "HIGH"⟩, 40, 24⟩

/-! ## A declared hierarchy with an 8-bit data type -/

/-- The root block `Block<uint16_t, uint8_t> ctrl(nullptr, 0x1000, "CTRL")`. -/
def ctrlBlock : Block := .mk ⟨none, 0x1000, "CTRL"⟩

/-- The register `Register<uint16_t, uint8_t> status(&ctrl, 0x10, "STATUS")`. -/
def statusRegister : Register := ⟨⟨some ctrlBlock, 0x1010, "STATUS"⟩⟩

/-- The field `Field<uint16_t, uint8_t> mode(&status, 2, 3, "MODE")`: three
bits at bit offset 2. -/
def modeField : Field := ⟨⟨some statusRegister, 0x1010, "MODE"⟩, 2, 3⟩

/-- The field `Field<uint16_t, uint8_t> whole(&status, 0, 8, "WHOLE")`: the
full 8-bit word. -/
def wholeField : Field := ⟨⟨some statusRegister, 0x1010, "WHOLE"⟩, 0, 8⟩

/-! ## Entities -/

/-- An entity of the hierarchy: a `Block`, a `Register` or a `Field`. -/
inductive Entity where
  | block (b : Block) : Entity
  | register (r : Register) : Entity
  | field (f : Field) : Entity

/-- The parent of an entity, as an entity. -/
def Entity.parent : Entity → Option Entity
  | .block b => b.parent.map Entity.block
  | .register r => r.parent.map Entity.block
  | .field f => f.parent.map Entity.register

/-- The accessor `name()` of an entity. -/
def Entity.name : Entity → String
  | .block b => b.name
  | .register r => r.name
  | .field f => f.name

/-- The method `fullName()` of an entity. -/
def Entity.fullName : Entity → String
  | .block b => b.fullName
  | .register r => r.fullName
  | .field f => f.fullName

/-- The names of the ancestors of a `Block` and its own name, from the root to
the block. -/
def Block.names : Block → List String
  | .mk ⟨some p, _, n⟩ => p.names ++ [n]
  | .mk ⟨none, _, n⟩ => [n]

/-- The names of the ancestors of a `Register` and its own name, from the root
to the register. -/
def Register.names (r : Register) : List String :=
  match r.base.m_parent with
  | some p => p.names ++ [r.base.m_name]
  | none => [r.base.m_name]

/-- The names of the ancestors of a `Field` and its own name, from the root to
the field. -/
def Field.names (f : Field) : List String :=
  match f.base.m_parent with
  | some r => r.names ++ [f.base.m_name]
  | none => [f.base.m_name]

/-- The names of the ancestors of an entity and its own name, from the root to
the entity. -/
def Entity.names : Entity → List String
  | .block b => b.names
  | .register r => r.names
  | .field f => f.names

/-- A block nested three deep, `Block<uint16_t, uint8_t> leaf(&mid, 0x20, "LEAF")`
under `mid(&ctrl, 0x100, "MID")`, with a register and a field below it. -/
def leafBlock : Block := .mk ⟨some (.mk ⟨some ctrlBlock, 0x1100, "MID"⟩), 0x1120, "LEAF"⟩

/-- The register `Register<uint16_t, uint8_t> data(&leaf, 0x4, "DATA")`. -/
def dataRegister : Register := ⟨⟨some leafBlock, 0x1124, "DATA"⟩⟩

/-- The field `Field<uint16_t, uint8_t> flag(&data, 7, 1, "FLAG")`. -/
def flagField : Field := ⟨⟨some dataRegister, 0x1124, "FLAG"⟩, 7, 1⟩

/-! ## Hierarchies and sibling names -/

/-- A hierarchy holds, with each of its entities, the parent of the entity. -/
def closedUnderParent (H : List Entity) : Prop :=
  ∀ e ∈ H, ∀ p, e.parent = some p → p ∈ H

/-- No two siblings share a name: two distinct entities of the hierarchy with
the same parent, or both without a parent, have different names. -/
def siblingNamesDistinct (H : List Entity) : Prop :=
  ∀ e1 ∈ H, ∀ e2 ∈ H, e1 ≠ e2 → e1.parent = e2.parent → e1.name ≠ e2.name

/-- The qualified name identifies the entity: two distinct entities of the
hierarchy have different qualified names. -/
def fullNameIdentifies (H : List Entity) : Prop :=
  ∀ e1 ∈ H, ∀ e2 ∈ H, e1 ≠ e2 → e1.fullName ≠ e2.fullName

/-- No name of the hierarchy holds the separator character of `fullName()`. -/
def namesWithoutSeparator (H : List Entity) : Prop :=
  ∀ e ∈ H, '.' ∉ e.name.data

/-- The root block `Block<uint16_t, uint8_t> dotted(nullptr, 0x0, "A.B")`, whose
name holds the separator. -/
def dottedBlock : Block := .mk ⟨none, 0x0, "A.B"⟩

/-- The root block `Block<uint16_t, uint8_t> a(nullptr, 0x100, "A")`. -/
def aBlock : Block := .mk ⟨none, 0x100, "A"⟩

/-- The nested block `Block<uint16_t, uint8_t> b(&a, 0x10, "B")`. -/
def bBlock : Block := .mk ⟨some aBlock, 0x110, "B"⟩

/-- The hierarchy of the three blocks "A.B", "A" and "B" under "A". -/
def dottedHierarchy : List Entity :=
  [Entity.block dottedBlock, Entity.block aBlock, Entity.block bBlock]

/-- The hierarchy of the block "CTRL", its register "STATUS" and the field
"MODE" of the register. -/
def ctrlHierarchy : List Entity :=
  [Entity.block ctrlBlock, Entity.register statusRegister, Entity.field modeField]

/-! ## Address composition -/

theorem intVal_of_lt {p : Nat} (h : p < 2 ^ 31) : intVal p = (p : Int) := by
  unfold intVal intBits
  rw [if_pos (by simpa using h)]

theorem addInt_of_lt {a b : Nat} (h : a + b < 2 ^ 31) : addInt a b = some (a + b) := by
  have ha : a < 2 ^ 31 := by omega
  have hb : b < 2 ^ 31 := by omega
  unfold addInt inIntRange intPat
  rw [intVal_of_lt ha, intVal_of_lt hb]
  simp only [intBits]
  have h1 : (-(2 ^ (32 - 1)) : Int) ≤ (a : Int) + (b : Int) := by norm_num; omega
  have h2 : (a : Int) + (b : Int) < 2 ^ (32 - 1) := by norm_num; omega
  simp only [h1, h2, decide_True, Bool.and_self, if_true]
  congr 1
  have h3 : ((a : Int) + (b : Int)) % 2 ^ 32 = ((a + b : Nat) : Int) := by
    rw [Int.emod_eq_of_lt (by omega) (by norm_num; omega)]
    push_cast; rfl
  rw [h3]; exact Int.toNat_ofNat _

theorem addPromoted_narrow {w a b : Nat} (hw : ValidAddressOrDataType w)
    (ha : a < 2 ^ w) (hb : b < 2 ^ w) :
    (addPromoted w a b).map (narrow w) = some ((a + b) % 2 ^ w) := by
  unfold addPromoted narrow intBits
  rcases hw with h | h | h | h <;> subst h
  · rw [if_pos (by decide), addInt_of_lt (by norm_num at ha hb ⊢; omega)]; rfl
  · rw [if_pos (by decide), addInt_of_lt (by norm_num at ha hb ⊢; omega)]; rfl
  · rw [if_neg (by decide)]; simp
  · rw [if_neg (by decide)]; simp

theorem BRFBase.ctor_some {P : Type} {w : Nat} (hw : ValidAddressOrDataType w)
    (address : P → Nat) (p : P) (o : Nat) (nm : String)
    (hp : address p < 2 ^ w) (ho : o < 2 ^ w) :
    BRFBase.ctor w address (some p) o nm = some ⟨some p, (address p + o) % 2 ^ w, nm⟩ := by
  have h := addPromoted_narrow hw hp ho
  unfold BRFBase.ctor
  cases hs : addPromoted w (address p) o with
  | none => rw [hs] at h; simp at h
  | some s =>
    rw [hs] at h
    simp only [Option.map_some', Option.some.injEq] at h
    simp [hs, h]

theorem BRFBase.ctor_none {P : Type} {w : Nat} (hw : ValidAddressOrDataType w)
    (address : P → Nat) (o : Nat) (nm : String) (ho : o < 2 ^ w) :
    BRFBase.ctor w address none o nm = some ⟨none, o, nm⟩ := by
  have h := addPromoted_narrow hw (Nat.two_pow_pos w) ho
  unfold BRFBase.ctor
  cases hs : addPromoted w 0 o with
  | none => rw [hs] at h; simp at h
  | some s =>
    rw [hs] at h
    simp only [Option.map_some', Option.some.injEq, Nat.zero_add, Nat.mod_eq_of_lt ho] at h
    simp [hs, h]

theorem Block.nest_address {w : Nat} (hw : ValidAddressOrDataType w) :
    ∀ (rest : List (Nat × String)) (b : Block), b.address < 2 ^ w →
      (∀ x ∈ rest, x.1 < 2 ^ w) →
      ∃ bn, Block.nest w b rest = some bn ∧
        bn.address = (b.address + (rest.map Prod.fst).sum) % 2 ^ w
  | [], b, hb, _ => ⟨b, rfl, by simp [Nat.mod_eq_of_lt hb]⟩
  | (o, n) :: rest, b, hb, hr => by
    have ho : o < 2 ^ w := hr (o, n) (List.mem_cons_self _ _)
    have hc : Block.ctor w (some b) o n = some (Block.mk ⟨some b, (b.address + o) % 2 ^ w, n⟩) := by
      unfold Block.ctor
      rw [BRFBase.ctor_some hw Block.address b o n hb ho]; rfl
    obtain ⟨bn, h1, h2⟩ := Block.nest_address hw rest (Block.mk ⟨some b, (b.address + o) % 2 ^ w, n⟩)
      (Nat.mod_lt _ (Nat.two_pow_pos w)) (fun x hx => hr x (List.mem_cons_of_mem _ hx))
    refine ⟨bn, ?_, ?_⟩
    · simp [Block.nest, hc, h1]
    · rw [h2]
      simp only [Block.address, Block.base, List.map_cons, List.sum_cons]
      rw [Nat.mod_add_mod, Nat.add_assoc]

/-- C1: a Register declared under a chain of nested Blocks has as address the
sum of the declared offsets of the Blocks of the chain and of the Register,
modulo 2 ^ AType, and its construction never fails. -/
theorem register_address_sum (AType : Nat) (hA : ValidAddressOrDataType AType)
    (o0 : Nat) (n0 : String) (rest : List (Nat × String)) (o : Nat) (nm : String)
    (h0 : o0 < 2 ^ AType) (hrest : ∀ x ∈ rest, x.1 < 2 ^ AType) (ho : o < 2 ^ AType) :
    (do
      let b0 ← Block.ctor AType none o0 n0
      let bn ← Block.nest AType b0 rest
      let r ← Register.ctor AType (some bn) o nm
      pure r.address) = some ((o0 + (rest.map Prod.fst).sum + o) % 2 ^ AType) := by
  have hc : Block.ctor AType none o0 n0 = some (Block.mk ⟨none, o0, n0⟩) := by
    unfold Block.ctor
    rw [BRFBase.ctor_none hA Block.address o0 n0 h0]; rfl
  obtain ⟨bn, h1, h2⟩ := Block.nest_address hA rest (Block.mk ⟨none, o0, n0⟩) h0 hrest
  have hbn : bn.address < 2 ^ AType := by
    rw [h2]; exact Nat.mod_lt _ (Nat.two_pow_pos AType)
  have hr : Register.ctor AType (some bn) o nm
      = some ⟨⟨some bn, (bn.address + o) % 2 ^ AType, nm⟩⟩ := by
    unfold Register.ctor
    rw [BRFBase.ctor_some hA Block.address bn o nm hbn ho]; rfl
  simp only [hc, h1, hr, Option.bind_eq_bind, Option.some_bind, Option.pure_def,
    Register.address]
  rw [h2]
  simp only [Block.address, Block.base]
  rw [Nat.mod_add_mod]

/-- C1, at the two declared hierarchies: offsets 0x1000 and 0x10 give 0x1010,
offsets 0x2000, 0x1000 and 0x10 give 0x3010. -/
theorem register_address_sum_witness :
    ValidAddressOrDataType 16 ∧
    (do
      let b0 ← Block.ctor 16 none 0x1000 "BLK"
      let bn ← Block.nest 16 b0 []
      let r ← Register.ctor 16 (some bn) 0x10 "REG"
      pure r.address) = some 0x1010 ∧
    (do
      let b0 ← Block.ctor 16 none 0x2000 "TOP"
      let bn ← Block.nest 16 b0 [(0x1000, "SUB")]
      let r ← Register.ctor 16 (some bn) 0x10 "REG"
      pure r.address) = some 0x3010 :=
  ⟨by decide,
   (register_address_sum 16 (by decide) 0x1000 "BLK" [] 0x10 "REG"
      (by decide) (by simp) (by decide)).trans (by decide),
   (register_address_sum 16 (by decide) 0x2000 "TOP" [(0x1000, "SUB")] 0x10 "REG"
      (by decide) (by simp) (by decide)).trans (by decide)⟩

/-- C2: an entity constructed with a parent has the address
(offset + parent address) mod 2 ^ AType, an entity constructed without a parent
has its offset as address; the construction never fails, the sum wraps. -/
theorem address_wraps (AType : Nat) (hA : ValidAddressOrDataType AType)
    (p : Block) (o : Nat) (nm : String)
    (hp : p.address < 2 ^ AType) (ho : o < 2 ^ AType) :
    (Block.ctor AType (some p) o nm).map Block.address
        = some ((o + p.address) % 2 ^ AType) ∧
    (Register.ctor AType (some p) o nm).map Register.address
        = some ((o + p.address) % 2 ^ AType) ∧
    (Block.ctor AType none o nm).map Block.address = some o ∧
    (Register.ctor AType none o nm).map Register.address = some o := by
  unfold Block.ctor Register.ctor
  rw [BRFBase.ctor_some hA Block.address p o nm hp ho,
    BRFBase.ctor_none hA Block.address o nm ho, Nat.add_comm o]
  exact ⟨rfl, rfl, rfl, rfl⟩

/-- C2, for an 8-bit address type: parent address 0xF0 and offset 0x20 give the
address 0x10. -/
theorem address_wraps_witness :
    ValidAddressOrDataType 8 ∧
    (Block.ctor 8 (some (Block.mk ⟨none, 0xF0, "P"⟩)) 0x20 "C").map Block.address
        = some 0x10 ∧
    (Register.ctor 8 (some (Block.mk ⟨none, 0xF0, "P"⟩)) 0x20 "C").map Register.address
        = some 0x10 :=
  ⟨by decide,
   (address_wraps 8 (by decide) (Block.mk ⟨none, 0xF0, "P"⟩) 0x20 "C"
      (by decide) (by decide)).1.trans (by decide),
   (address_wraps 8 (by decide) (Block.mk ⟨none, 0xF0, "P"⟩) 0x20 "C"
      (by decide) (by decide)).2.1.trans (by decide)⟩

/-! ## Field arithmetic where it is defined -/

theorem subInt_one {a : Nat} (h1 : 1 ≤ a) (h2 : a < 2 ^ 31) : subInt a 1 = some (a - 1) := by
  unfold subInt inIntRange intPat
  rw [intVal_of_lt h2, intVal_of_lt (by norm_num : 1 < 2 ^ 31)]
  simp only [intBits]
  have h3 : (-(2 ^ (32 - 1)) : Int) ≤ (a : Int) - ((1 : Nat) : Int) := by norm_num; omega
  have h4 : (a : Int) - ((1 : Nat) : Int) < 2 ^ (32 - 1) := by norm_num; omega
  simp only [h3, h4, decide_True, Bool.and_self, if_true]
  congr 1
  have h5 : ((a : Int) - ((1 : Nat) : Int)) % 2 ^ 32 = ((a - 1 : Nat) : Int) := by
    rw [Int.emod_eq_of_lt (by omega) (by norm_num; omega)]
    omega
  rw [h5]; exact Int.toNat_ofNat _

theorem ofInt_of_lt {w p : Nat} (h : p < 2 ^ 31) : ofInt w p = p % 2 ^ w := by
  unfold ofInt
  rw [intVal_of_lt h]
  have : ((p : Int) % 2 ^ w) = ((p % 2 ^ w : Nat) : Int) := by push_cast; rfl
  rw [this]; exact Int.toNat_ofNat _

theorem two_pow_le_of_le_30 {s : Nat} (h : s ≤ 30) : 2 ^ s ≤ 2 ^ 30 :=
  Nat.pow_le_pow_right (by decide) h

/-- Where the size is at most 30, `dataMask()` is defined and is
`2 ^ size - 1` converted to `DType`. -/
theorem Field.dataMask_of_le (DType : Nat) (f : Field) (hs : f.m_size ≤ 30) :
    f.dataMask DType = some ((2 ^ f.m_size - 1) % 2 ^ DType) := by
  have h30 := two_pow_le_of_le_30 hs
  have hpos : 1 ≤ 2 ^ f.m_size := Nat.one_le_two_pow
  have hshl : shl intBits 1 f.m_size = some (2 ^ f.m_size) := by
    unfold shl intBits
    rw [if_pos (by omega), Nat.one_mul, Nat.mod_eq_of_lt (by norm_num at h30 ⊢; omega)]
  unfold Field.dataMask
  rw [hshl]
  simp only [Option.bind_eq_bind, Option.some_bind]
  rw [subInt_one hpos (by norm_num at h30 ⊢; omega)]
  simp only [Option.some_bind, Option.pure_def]
  rw [ofInt_of_lt (by norm_num at h30 ⊢; omega)]

/-- Where the size is at most 30 and at most the width, `dataMask()` is
`2 ^ size - 1`. -/
theorem Field.dataMask_of_fit (DType : Nat) (f : Field) (hs : f.m_size ≤ 30)
    (hfit : f.m_size ≤ DType) :
    f.dataMask DType = some (2 ^ f.m_size - 1) := by
  rw [Field.dataMask_of_le DType f hs, Nat.mod_eq_of_lt]
  have : 2 ^ f.m_size ≤ 2 ^ DType := Nat.pow_le_pow_right (by decide) hfit
  have hpos : 1 ≤ 2 ^ f.m_size := Nat.one_le_two_pow
  omega

theorem le_promoBits (w : Nat) : w ≤ promoBits w := by
  unfold promoBits
  split <;> omega

theorem mask_shift_lt {w off size : Nat} (hfit : off + size ≤ w) (x : Nat) (hx : x < 2 ^ size) :
    x * 2 ^ off < 2 ^ w := by
  calc x * 2 ^ off < 2 ^ size * 2 ^ off := Nat.mul_lt_mul_of_pos_right hx (Nat.two_pow_pos off)
    _ = 2 ^ (size + off) := (Nat.pow_add 2 size off).symm
    _ ≤ 2 ^ w := Nat.pow_le_pow_right (by decide) (by omega)

theorem shl_narrow_of_fit {w off size : Nat} (hpos : 1 ≤ size) (hfit : off + size ≤ w)
    (x : Nat) (hx : x < 2 ^ size) :
    (shl (promoBits w) x off).map (narrow w) = some (x * 2 ^ off) := by
  have hp := le_promoBits w
  have hlt := mask_shift_lt hfit x hx
  have hle : 2 ^ w ≤ 2 ^ promoBits w := Nat.pow_le_pow_right (by decide) hp
  unfold shl narrow
  rw [if_pos (by omega)]
  simp only [Option.map_some']
  rw [Nat.mod_eq_of_lt (Nat.lt_of_lt_of_le hlt hle), Nat.mod_eq_of_lt hlt]

theorem two_pow_sub_one_lt {s w : Nat} (h : s ≤ w) : 2 ^ s - 1 < 2 ^ w := by
  have : 2 ^ s ≤ 2 ^ w := Nat.pow_le_pow_right (by decide) h
  have hpos : 1 ≤ 2 ^ s := Nat.one_le_two_pow
  omega

/-- Where `dataMask()` is defined and the field fits the word, `regMask()` is
the mask `2 ^ size - 1` shifted to the field offset. -/
theorem Field.regMask_of_fit (DType : Nat) (f : Field) (hpos : 1 ≤ f.m_size)
    (hs : f.m_size ≤ 30) (hfit : f.m_field_offset + f.m_size ≤ DType) :
    f.regMask DType = some ((2 ^ f.m_size - 1) <<< f.m_field_offset) := by
  have h := shl_narrow_of_fit hpos hfit (2 ^ f.m_size - 1)
    (by have : 1 ≤ 2 ^ f.m_size := Nat.one_le_two_pow
        omega)
  unfold Field.regMask
  rw [Field.dataMask_of_fit DType f hs (by omega)]
  simp only [Option.bind_eq_bind, Option.some_bind, Option.pure_def]
  cases hx : shl (promoBits DType) (2 ^ f.m_size - 1) f.m_field_offset with
  | none => rw [hx] at h; simp at h
  | some x =>
    rw [hx] at h
    simp only [Option.map_some', Option.some.injEq] at h
    simp [h, Nat.shiftLeft_eq]

/-- Where `dataMask()` is defined and the field fits the word, `extract` is the
register word shifted right by the offset and masked. -/
theorem Field.extract_of_fit (DType : Nat) (f : Field) (hpos : 1 ≤ f.m_size)
    (hs : f.m_size ≤ 30) (hfit : f.m_field_offset + f.m_size ≤ DType) (reg_val : Nat) :
    f.extract DType reg_val
      = some ((reg_val >>> f.m_field_offset) &&& (2 ^ f.m_size - 1)) := by
  have hp := le_promoBits DType
  have hshr : shr (promoBits DType) reg_val f.m_field_offset
      = some (reg_val >>> f.m_field_offset) := by
    unfold shr
    rw [if_pos (by omega), Nat.shiftRight_eq_div_pow]
  unfold Field.extract
  rw [hshr, Field.dataMask_of_fit DType f hs (by omega)]
  simp only [Option.bind_eq_bind, Option.some_bind, Option.pure_def, narrow]
  rw [Nat.mod_eq_of_lt]
  exact Nat.and_lt_two_pow _ (two_pow_sub_one_lt (by omega))

/-- Where `dataMask()` is defined and the field fits the word, `regVal` is the
masked value shifted to the field offset. -/
theorem Field.regVal_of_fit (DType : Nat) (f : Field) (hpos : 1 ≤ f.m_size)
    (hs : f.m_size ≤ 30) (hfit : f.m_field_offset + f.m_size ≤ DType) (val : Nat) :
    f.regVal DType val
      = some ((val &&& (2 ^ f.m_size - 1)) <<< f.m_field_offset) := by
  have h := shl_narrow_of_fit hpos hfit (val &&& (2 ^ f.m_size - 1))
    (Nat.and_lt_two_pow _ (two_pow_sub_one_lt (Nat.le_refl _)))
  unfold Field.regVal
  rw [Field.dataMask_of_fit DType f hs (by omega)]
  simp only [Option.bind_eq_bind, Option.some_bind, Option.pure_def]
  cases hx : shl (promoBits DType) (val &&& (2 ^ f.m_size - 1)) f.m_field_offset with
  | none => rw [hx] at h; simp at h
  | some x =>
    rw [hx] at h
    simp only [Option.map_some', Option.some.injEq] at h
    simp [h, Nat.shiftLeft_eq]

theorem shiftLeft_lt_of_fit {w off size : Nat} (hfit : off + size ≤ w) (x : Nat)
    (hx : x < 2 ^ size) : x <<< off < 2 ^ w := by
  rw [Nat.shiftLeft_eq]
  exact mask_shift_lt hfit x hx

theorem testBit_false_of_lt {r w i : Nat} (hr : r < 2 ^ w) (hi : w ≤ i) :
    r.testBit i = false :=
  Nat.testBit_lt_two_pow (Nat.lt_of_lt_of_le hr (Nat.pow_le_pow_right (by decide) hi))

theorem testBit_compl {w m : Nat} (hm : m < 2 ^ w) (i : Nat) :
    (2 ^ w - 1 - m).testBit i = (decide (i < w) && !m.testBit i) := by
  rw [Nat.sub_sub, Nat.add_comm 1 m]
  exact Nat.testBit_two_pow_sub_succ hm i

theorem and_bitNot_narrow {w pb r m : Nat} (hle : w ≤ pb) (hr : r < 2 ^ w) (hm : m < 2 ^ w) :
    narrow w (r &&& bitNot pb m) = r &&& (2 ^ w - 1 - m) := by
  have hm2 : m < 2 ^ pb := Nat.lt_of_lt_of_le hm (Nat.pow_le_pow_right (by decide) hle)
  unfold narrow bitNot
  apply Nat.eq_of_testBit_eq
  intro i
  rw [Nat.testBit_mod_two_pow, Nat.testBit_and, Nat.testBit_and, testBit_compl hm2,
    testBit_compl hm]
  by_cases hi : i < w
  · have : i < pb := by omega
    simp [hi, this]
  · simp [hi, testBit_false_of_lt hr (Nat.le_of_not_lt hi)]

/-- Where `dataMask()` is defined and the field fits the word, `insert` gives
the register word with the field bits cleared, or-ed with the positioned
value. -/
theorem Field.insert_of_fit (DType : Nat) (f : Field) (hpos : 1 ≤ f.m_size)
    (hs : f.m_size ≤ 30) (hfit : f.m_field_offset + f.m_size ≤ DType)
    (reg_val val : Nat) (hr : reg_val < 2 ^ DType) :
    f.insert DType reg_val val
      = some ((reg_val &&& (2 ^ DType - 1 - (2 ^ f.m_size - 1) <<< f.m_field_offset))
          ||| (val &&& (2 ^ f.m_size - 1)) <<< f.m_field_offset) := by
  have hM : (2 ^ f.m_size - 1) <<< f.m_field_offset < 2 ^ DType :=
    shiftLeft_lt_of_fit hfit _ (two_pow_sub_one_lt (Nat.le_refl _))
  have hV : (val &&& (2 ^ f.m_size - 1)) <<< f.m_field_offset < 2 ^ DType :=
    shiftLeft_lt_of_fit hfit _ (Nat.and_lt_two_pow _ (two_pow_sub_one_lt (Nat.le_refl _)))
  unfold Field.insert
  rw [Field.regMask_of_fit DType f hpos hs hfit, Field.regVal_of_fit DType f hpos hs hfit]
  simp only [Option.bind_eq_bind, Option.some_bind, Option.pure_def]
  rw [and_bitNot_narrow (le_promoBits DType) hr hM]
  unfold narrow
  rw [Nat.mod_eq_of_lt]
  exact Nat.or_lt_two_pow (Nat.lt_of_le_of_lt Nat.and_le_left hr) hV

theorem testBit_fieldMask (off size i : Nat) :
    ((2 ^ size - 1) <<< off).testBit i = decide (off ≤ i ∧ i < off + size) := by
  rw [Nat.testBit_shiftLeft, Nat.testBit_two_pow_sub_one]
  by_cases h1 : off ≤ i
  · by_cases h2 : i < off + size
    · have : i - off < size := by omega
      simp [h1, h2, this]
    · have : ¬ (i - off < size) := by omega
      simp [h1, h2, this]
  · simp [h1]

theorem testBit_fieldVal (off size v i : Nat) :
    ((v &&& (2 ^ size - 1)) <<< off).testBit i
      = (decide (off ≤ i ∧ i < off + size) && v.testBit (i - off)) := by
  rw [Nat.testBit_shiftLeft, Nat.testBit_and, Nat.testBit_two_pow_sub_one]
  by_cases h1 : off ≤ i
  · by_cases h2 : i < off + size
    · have : i - off < size := by omega
      simp [h1, h2, this]
    · have : ¬ (i - off < size) := by omega
      simp [h1, h2, this]
  · simp [h1]

theorem testBit_inserted {w off size : Nat} (hfit : off + size ≤ w) (r v i : Nat) :
    ((r &&& (2 ^ w - 1 - (2 ^ size - 1) <<< off)) ||| (v &&& (2 ^ size - 1)) <<< off).testBit i
      = if off ≤ i ∧ i < off + size then v.testBit (i - off)
        else (decide (i < w) && r.testBit i) := by
  have hM : (2 ^ size - 1) <<< off < 2 ^ w :=
    shiftLeft_lt_of_fit hfit _ (two_pow_sub_one_lt (Nat.le_refl _))
  rw [Nat.testBit_or, Nat.testBit_and, testBit_compl hM, testBit_fieldMask, testBit_fieldVal]
  by_cases h : off ≤ i ∧ i < off + size
  · have hw : i < w := by omega
    simp [h, hw]
  · simp only [h, decide_False, Bool.not_false, Bool.and_true, Bool.false_and, Bool.or_false,
      if_false]
    exact Bool.and_comm _ _

/-- A size of 31 or more leaves `dataMask()` undefined, whatever the data
type: `1 << 31` is the least `int`, from which `1` cannot be subtracted, and a
shift of an `int` by 32 or more is undefined. -/
theorem Field.dataMask_undefined (DType : Nat) (f : Field) (hs : 31 ≤ f.m_size) :
    f.dataMask DType = none := by
  unfold Field.dataMask shl
  by_cases h : f.m_size < intBits
  · have h31 : f.m_size = 31 := by unfold intBits at h; omega
    rw [h31]
    rfl
  · rw [if_neg h]
    rfl

/-- Where the field fits the word and its size is at most 30, bit `i` of
`regMask()` is set exactly when `offset <= i < offset + size`. -/
theorem Field.regMask_bits (DType : Nat) (f : Field) (hpos : 1 ≤ f.m_size)
    (hs : f.m_size ≤ 30) (hfit : f.m_field_offset + f.m_size ≤ DType) :
    ∃ m, f.regMask DType = some m ∧
      ∀ i, m.testBit i = decide (f.m_field_offset ≤ i ∧ i < f.m_field_offset + f.m_size) :=
  ⟨_, Field.regMask_of_fit DType f hpos hs hfit, testBit_fieldMask _ _⟩

/-- Where the field fits the word and its size is at most 30, `regVal` ignores
the bits of the value at positions `size` and above. -/
theorem Field.regVal_truncates (DType : Nat) (f : Field) (hpos : 1 ≤ f.m_size)
    (hs : f.m_size ≤ 30) (hfit : f.m_field_offset + f.m_size ≤ DType) (val : Nat) :
    f.regVal DType val = f.regVal DType (val &&& (2 ^ f.m_size - 1)) := by
  rw [Field.regVal_of_fit DType f hpos hs hfit, Field.regVal_of_fit DType f hpos hs hfit,
    Nat.and_assoc, Nat.and_self]

/-- Where the field fits the word and its size is at most 30, `insert` leaves
the bits outside the field unchanged. -/
theorem Field.insert_frame (DType : Nat) (f : Field) (hpos : 1 ≤ f.m_size)
    (hs : f.m_size ≤ 30) (hfit : f.m_field_offset + f.m_size ≤ DType)
    (reg_val val : Nat) (hr : reg_val < 2 ^ DType) :
    ∃ m r, f.regMask DType = some m ∧ f.insert DType reg_val val = some r ∧
      r &&& (2 ^ DType - 1 - m) = reg_val &&& (2 ^ DType - 1 - m) := by
  refine ⟨_, _, Field.regMask_of_fit DType f hpos hs hfit,
    Field.insert_of_fit DType f hpos hs hfit reg_val val hr, ?_⟩
  have hM : (2 ^ f.m_size - 1) <<< f.m_field_offset < 2 ^ DType :=
    shiftLeft_lt_of_fit hfit _ (two_pow_sub_one_lt (Nat.le_refl _))
  apply Nat.eq_of_testBit_eq
  intro i
  rw [Nat.testBit_and, testBit_inserted hfit, Nat.testBit_and, testBit_compl hM,
    testBit_fieldMask]
  by_cases h : f.m_field_offset ≤ i ∧ i < f.m_field_offset + f.m_size
  · simp [h]
  · by_cases hw : i < DType
    · simp [h, hw]
    · simp [h, hw]

/-- Where the field fits the word and its size is at most 30, extracting after
an insert into the zero word gives the value masked to the field size. -/
theorem Field.extract_insert_zero (DType : Nat) (f : Field) (hpos : 1 ≤ f.m_size)
    (hs : f.m_size ≤ 30) (hfit : f.m_field_offset + f.m_size ≤ DType) (val : Nat) :
    (f.insert DType 0 val).bind (f.extract DType) = some (val &&& (2 ^ f.m_size - 1)) := by
  rw [Field.insert_of_fit DType f hpos hs hfit 0 val (Nat.two_pow_pos DType)]
  simp only [Option.some_bind]
  rw [Field.extract_of_fit DType f hpos hs hfit]
  congr 1
  apply Nat.eq_of_testBit_eq
  intro i
  rw [Nat.testBit_and, Nat.testBit_shiftRight, testBit_inserted hfit, Nat.testBit_and,
    Nat.testBit_two_pow_sub_one]
  by_cases h : i < f.m_size
  · have h2 : f.m_field_offset ≤ f.m_field_offset + i
        ∧ f.m_field_offset + i < f.m_field_offset + f.m_size := by omega
    simp [h, h2]
  · simp [h]

/-- Where the field fits the word and its size is at most 30, inserting the
extracted value leaves the register word unchanged. -/
theorem Field.insert_extract (DType : Nat) (f : Field) (hpos : 1 ≤ f.m_size)
    (hs : f.m_size ≤ 30) (hfit : f.m_field_offset + f.m_size ≤ DType)
    (reg_val : Nat) (hr : reg_val < 2 ^ DType) :
    (f.extract DType reg_val).bind (f.insert DType reg_val) = some reg_val := by
  rw [Field.extract_of_fit DType f hpos hs hfit]
  simp only [Option.some_bind]
  rw [Field.insert_of_fit DType f hpos hs hfit reg_val _ hr]
  congr 1
  apply Nat.eq_of_testBit_eq
  intro i
  rw [testBit_inserted hfit, Nat.testBit_and, Nat.testBit_shiftRight,
    Nat.testBit_two_pow_sub_one]
  by_cases h : f.m_field_offset ≤ i ∧ i < f.m_field_offset + f.m_size
  · have h2 : i - f.m_field_offset < f.m_size := by omega
    have h3 : f.m_field_offset + (i - f.m_field_offset) = i := by omega
    simp [h, h2, h3]
  · by_cases hw : i < DType
    · simp [h, hw]
    · simp [h, hw, testBit_false_of_lt hr (Nat.le_of_not_lt hw)]

/-! ## The wide field: a size above 30 -/

/-- The sample hierarchy is what the constructors build, with a 32-bit address
type. -/
theorem wideField_constructed :
    Block.ctor 32 none 0x1000 "BLK" = some wideBlock ∧
    Register.ctor 32 (some wideBlock) 0x10 "REG" = some wideRegister ∧
    Field.ctor 32 (some wideRegister) 0 40 "WIDE" = some wideField :=
  ⟨rfl, rfl, rfl⟩

/-- C3 (fails on the code): for the 40-bit field at offset 0 of a 64-bit data
type, inside the declared ranges, `dataMask()` shifts the `int` 1 by 40 and is
undefined; it does not give 2 ^ 40 - 1. -/
theorem dataMask_wideField :
    ValidAddressOrDataType 64 ∧ wideField.m_field_offset < 64 ∧ 1 ≤ wideField.m_size ∧
    wideField.m_size ≤ 64 - wideField.m_field_offset ∧
    shl intBits 1 wideField.m_size = none ∧
    wideField.dataMask 64 = none ∧
    wideField.dataMask 64 ≠ some (2 ^ wideField.m_size - 1) := by
  decide

/-- C4 (fails on the code): for the 40-bit field at offset 0 of a 64-bit data
type, `regMask()` is undefined, so no bit of it is set. -/
theorem regMask_wideField :
    ValidAddressOrDataType 64 ∧ wideField.m_field_offset + wideField.m_size ≤ 64 ∧
    wideField.regMask 64 = none ∧
    wideField.regMask 64 ≠ some ((2 ^ wideField.m_size - 1) <<< wideField.m_field_offset) := by
  decide

/-- C5 (fails on the code): for the 40-bit field at offset 0 of a 64-bit data
type, `extract` of the word 0x123456789A is undefined; bits 0..39 of the word
are the word itself. -/
theorem extract_wideField :
    ValidAddressOrDataType 64 ∧ wideField.m_field_offset + wideField.m_size ≤ 64 ∧
    0x123456789A < 2 ^ 64 ∧
    (0x123456789A >>> wideField.m_field_offset) % 2 ^ wideField.m_size = 0x123456789A ∧
    wideField.extract 64 0x123456789A = none := by
  decide

/-- C6 (fails on the code): for the 40-bit field at offset 0 of a 64-bit data
type, `regVal` of the value 0b1011 is undefined, where the positioned value
is 0b1011. -/
theorem regVal_wideField :
    ValidAddressOrDataType 64 ∧ wideField.m_field_offset + wideField.m_size ≤ 64 ∧
    0b1011 < 2 ^ 64 ∧
    (0b1011 % 2 ^ wideField.m_size) <<< wideField.m_field_offset = 0b1011 ∧
    wideField.regVal 64 0b1011 = none := by
  decide

/-- C7 (fails on the code): for the 40-bit field at offset 0 of a 64-bit data
type, `insert` of the value 0x123456789A into the word 0xFFFFFFFFFFFFFFFF is
undefined: no register word results. -/
theorem insert_wideField :
    ValidAddressOrDataType 64 ∧ wideField.m_field_offset + wideField.m_size ≤ 64 ∧
    0xFFFFFFFFFFFFFFFF < 2 ^ 64 ∧ 0x123456789A < 2 ^ 64 ∧
    wideField.insert 64 0xFFFFFFFFFFFFFFFF 0x123456789A = none := by
  decide

/-- C8 (fails on the code): for the 40-bit field at offset 0 of a 64-bit data
type, `insert` of a value wider than the field into the word
0xABCDEF0000000000 is undefined, so the bits outside the field are not kept. -/
theorem insert_frame_wideField :
    ValidAddressOrDataType 64 ∧ wideField.m_field_offset + wideField.m_size ≤ 64 ∧
    0xABCDEF0000000000 < 2 ^ 64 ∧ 0x1FFFFFFFFFFF < 2 ^ 64 ∧
    2 ^ wideField.m_size ≤ 0x1FFFFFFFFFFF ∧
    wideField.regMask 64 = none ∧
    wideField.insert 64 0xABCDEF0000000000 0x1FFFFFFFFFFF = none := by
  decide

/-- C9 (fails on the code): for the 40-bit field at offset 0 of a 64-bit data
type, inserting 0x123456789A into the zero word and extracting is undefined;
it does not recover the value. -/
theorem extract_insert_zero_wideField :
    ValidAddressOrDataType 64 ∧ wideField.m_field_offset + wideField.m_size ≤ 64 ∧
    0x123456789A < 2 ^ 64 ∧
    (wideField.insert 64 0 0x123456789A).bind (wideField.extract 64) = none ∧
    (wideField.insert 64 0 0x123456789A).bind (wideField.extract 64)
      ≠ some (0x123456789A &&& (2 ^ wideField.m_size - 1)) := by
  decide

/-- C10 (fails on the code): for the 40-bit field at offset 0 of a 64-bit data
type, inserting the extracted value into the word 0xABCDEF0123456789 is
undefined; the word is not returned unchanged. -/
theorem insert_extract_wideField :
    ValidAddressOrDataType 64 ∧ wideField.m_field_offset + wideField.m_size ≤ 64 ∧
    0xABCDEF0123456789 < 2 ^ 64 ∧
    (wideField.extract 64 0xABCDEF0123456789).bind (wideField.insert 64 0xABCDEF0123456789)
      = none ∧
    (wideField.extract 64 0xABCDEF0123456789).bind (wideField.insert 64 0xABCDEF0123456789)
      ≠ some 0xABCDEF0123456789 := by
  decide

/-! ## Qualified names -/

theorem Block.fullName_unfold (b : Block) :
    b.fullName = match b.parent with
      | some p => (p.fullName ++ ".") ++ b.name
      | none => b.name := by
  match b with
  | .mk ⟨some p, a, n⟩ => simp [Block.fullName, Block.parent, Block.base, Block.name]
  | .mk ⟨none, a, n⟩ => simp [Block.fullName, Block.parent, Block.base, Block.name]

theorem Entity.fullName_parent (e : Entity) :
    e.fullName = match e.parent with
      | some p => (p.fullName ++ ".") ++ e.name
      | none => e.name := by
  cases e with
  | block b =>
    rw [Entity.fullName, Block.fullName_unfold b]
    cases h : b.parent <;> simp [Entity.parent, Entity.name, Entity.fullName, h]
  | register r =>
    simp only [Entity.fullName, Register.fullName, Entity.parent, Register.parent, Entity.name,
      Register.name]
    cases h : r.base.m_parent <;> simp [Entity.fullName]
  | field f =>
    simp only [Entity.fullName, Field.fullName, Entity.parent, Field.parent, Entity.name,
      Field.name]
    cases h : f.base.m_parent <;> simp [Entity.fullName]

/-- C13: the qualified name of an entity with a parent is the qualified name of
the parent, then ".", then its own name; the qualified name of an entity without
a parent is its own name. The Register "STATUS" under the root Block "CTRL" has
the qualified name "CTRL.STATUS". -/
theorem fullName_composition :
    (∀ e : Entity, e.fullName = match e.parent with
      | some p => (p.fullName ++ ".") ++ e.name
      | none => e.name) ∧
    ctrlBlock.parent = none ∧ ctrlBlock.name = "CTRL" ∧
    statusRegister.parent = some ctrlBlock ∧ statusRegister.name = "STATUS" ∧
    statusRegister.fullName = "CTRL.STATUS" ∧ ctrlBlock.fullName = "CTRL" :=
  ⟨Entity.fullName_parent, rfl, rfl, rfl, rfl, by decide, by decide⟩

theorem intercalate_go_snoc (s n : String) :
    ∀ (l : List String) (acc : String),
      String.intercalate.go acc s (l ++ [n]) = (String.intercalate.go acc s l ++ s) ++ n
  | [], acc => by simp [String.intercalate.go]
  | a :: l, acc => by
    simp only [List.cons_append, String.intercalate.go]
    exact intercalate_go_snoc s n l _

theorem intercalate_snoc (s n : String) (l : List String) (hl : l ≠ []) :
    s.intercalate (l ++ [n]) = (s.intercalate l ++ s) ++ n := by
  cases l with
  | nil => exact absurd rfl hl
  | cons a l =>
    simp only [List.cons_append, String.intercalate]
    exact intercalate_go_snoc s n l a

theorem Block.block_names_ne_nil : ∀ b : Block, b.names ≠ []
  | .mk ⟨some p, _, n⟩ => by simp [Block.names]
  | .mk ⟨none, _, n⟩ => by simp [Block.names]

theorem Block.fullName_block_join : ∀ b : Block, b.fullName = ".".intercalate b.names
  | .mk ⟨some p, _, n⟩ => by
    rw [Block.fullName, Block.names, intercalate_snoc "." n p.names (Block.block_names_ne_nil p),
      Block.fullName_block_join p]
  | .mk ⟨none, _, n⟩ => by
    simp [Block.fullName, Block.names, String.intercalate, String.intercalate.go]

theorem Register.register_names_ne_nil (r : Register) : r.names ≠ [] := by
  unfold Register.names
  cases r.base.m_parent <;> simp

theorem Register.fullName_register_join (r : Register) :
    r.fullName = ".".intercalate r.names := by
  unfold Register.fullName Register.names
  cases r.base.m_parent with
  | none => simp [String.intercalate, String.intercalate.go]
  | some p =>
    simp only
    rw [intercalate_snoc "." _ p.names (Block.block_names_ne_nil p), Block.fullName_block_join p]

theorem Field.fullName_field_join (f : Field) :
    f.fullName = ".".intercalate f.names := by
  unfold Field.fullName Field.names
  cases f.base.m_parent with
  | none => simp [String.intercalate, String.intercalate.go]
  | some r =>
    simp only
    rw [intercalate_snoc "." _ r.names (Register.register_names_ne_nil r),
      Register.fullName_register_join r]

/-- C14: the qualified name of an entity at any depth, a Field under a Register
under nested Blocks included, is the list of the names of its ancestors from the
root followed by its own name, joined with the separator ".". -/
theorem fullName_joins_names :
    (∀ e : Entity, e.fullName = ".".intercalate e.names) ∧
    (Entity.field flagField).names = ["CTRL", "MID", "LEAF", "DATA", "FLAG"] ∧
    (Entity.field flagField).fullName = "CTRL.MID.LEAF.DATA.FLAG" := by
  refine ⟨?_, by decide, by decide⟩
  intro e
  cases e with
  | block b => exact Block.fullName_block_join b
  | register r => exact Register.fullName_register_join r
  | field f => exact Field.fullName_field_join f

/-- C16: a Field constructed under a Register has the address of the Register,
whatever its bit offset and size. -/
theorem field_address_eq_register (AType : Nat) (hA : ValidAddressOrDataType AType)
    (r : Register) (offset size : Nat) (nm : String) (hr : r.address < 2 ^ AType) :
    (Field.ctor AType (some r) offset size nm).map Field.address = some r.address := by
  unfold Field.ctor
  rw [BRFBase.ctor_some hA Register.address r 0 nm hr (Nat.two_pow_pos AType)]
  simp [Field.address, Nat.mod_eq_of_lt hr]

/-- C16, for the field of three bits at bit offset 2 of the register at
address 0x1010. -/
theorem field_address_eq_register_witness :
    ValidAddressOrDataType 16 ∧ statusRegister.address < 2 ^ 16 ∧
    Field.ctor 16 (some statusRegister) 2 3 "MODE" = some modeField ∧
    (Field.ctor 16 (some statusRegister) 2 3 "MODE").map Field.address = some 0x1010 :=
  ⟨by decide, by decide, rfl,
   field_address_eq_register 16 (by decide) statusRegister 2 3 "MODE" (by decide)⟩

/-! ## Fields of 8-bit and 16-bit data types -/

/-- C17: for the 8-bit data type, the field of 3 bits at bit offset 2 has the
data mask 0b111 and the register mask 0b00011100, extracts 0b011 from
0b10101111, and inserting 0b101 into 0b10101111 gives 0b10110111. -/
theorem mode_field_example :
    ValidAddressOrDataType 8 ∧ modeField.offset = 2 ∧ modeField.size = 3 ∧
    modeField.dataMask 8 = some 0b111 ∧
    modeField.regMask 8 = some 0b00011100 ∧
    modeField.extract 8 0b10101111 = some 0b011 ∧
    modeField.insert 8 0b10101111 0b101 = some 0b10110111 := by
  decide

/-- C20: for a data type of 8 or 16 bits, the field that covers the full word
is well defined, the mask being computed in `int`: the data mask and the
register mask are 2 ^ DType - 1, `extract` returns the register word and
`insert` leaves the register word equal to the value. -/
theorem full_word_field (DType : Nat) (hD : DType = 8 ∨ DType = 16) (f : Field)
    (hoff : f.m_field_offset = 0) (hsize : f.m_size = DType)
    (reg_val val : Nat) (hr : reg_val < 2 ^ DType) (hv : val < 2 ^ DType) :
    f.dataMask DType = some (2 ^ DType - 1) ∧
    f.regMask DType = some (2 ^ DType - 1) ∧
    f.extract DType reg_val = some reg_val ∧
    f.insert DType reg_val val = some val := by
  have hs : f.m_size ≤ 30 := by omega
  have hpos : 1 ≤ f.m_size := by omega
  have hfit : f.m_field_offset + f.m_size ≤ DType := by omega
  refine ⟨?_, ?_, ?_, ?_⟩
  · rw [Field.dataMask_of_fit DType f hs (by omega), hsize]
  · rw [Field.regMask_of_fit DType f hpos hs hfit, hsize, hoff, Nat.shiftLeft_zero]
  · rw [Field.extract_of_fit DType f hpos hs hfit, hsize, hoff, Nat.shiftRight_zero,
      Nat.and_pow_two_sub_one_eq_mod, Nat.mod_eq_of_lt hr]
  · rw [Field.insert_of_fit DType f hpos hs hfit reg_val val hr, hsize, hoff,
      Nat.shiftLeft_zero, Nat.shiftLeft_zero, Nat.sub_self, Nat.and_zero, Nat.zero_or,
      Nat.and_pow_two_sub_one_eq_mod, Nat.mod_eq_of_lt hv]

/-- C20, for the field covering the 8-bit word, the register word 0xA5 and the
value 0x3C. -/
theorem full_word_field_witness :
    (8 = 8 ∨ 8 = 16) ∧ wholeField.m_field_offset = 0 ∧ wholeField.m_size = 8 ∧
    0xA5 < 2 ^ 8 ∧ 0x3C < 2 ^ 8 ∧
    wholeField.dataMask 8 = some 0xFF ∧
    wholeField.regMask 8 = some 0xFF ∧
    wholeField.extract 8 0xA5 = some 0xA5 ∧
    wholeField.insert 8 0xA5 0x3C = some 0x3C :=
  ⟨by decide, rfl, rfl, by decide, by decide,
   full_word_field 8 (by decide) wholeField rfl rfl 0xA5 0x3C (by decide) (by decide)⟩

/-! ## Two inserts, where the masks are defined -/

theorem inserted_lt {w off size : Nat} (hfit : off + size ≤ w) (r v : Nat) (hr : r < 2 ^ w) :
    (r &&& (2 ^ w - 1 - (2 ^ size - 1) <<< off)) ||| (v &&& (2 ^ size - 1)) <<< off < 2 ^ w :=
  Nat.or_lt_two_pow (Nat.lt_of_le_of_lt Nat.and_le_left hr)
    (shiftLeft_lt_of_fit hfit _ (Nat.and_lt_two_pow _ (two_pow_sub_one_lt (Nat.le_refl _))))

/-- Where both sizes are at most 30, the register masks of two fields that do
not overlap have no bit in common. -/
theorem Field.regMask_disjoint (DType : Nat) (A B : Field)
    (hposA : 1 ≤ A.m_size) (hsA : A.m_size ≤ 30) (hfitA : A.m_field_offset + A.m_size ≤ DType)
    (hposB : 1 ≤ B.m_size) (hsB : B.m_size ≤ 30) (hfitB : B.m_field_offset + B.m_size ≤ DType)
    (hdis : A.m_field_offset + A.m_size ≤ B.m_field_offset
      ∨ B.m_field_offset + B.m_size ≤ A.m_field_offset) :
    ∃ a b, A.regMask DType = some a ∧ B.regMask DType = some b ∧ a &&& b = 0 := by
  refine ⟨_, _, Field.regMask_of_fit DType A hposA hsA hfitA,
    Field.regMask_of_fit DType B hposB hsB hfitB, ?_⟩
  apply Nat.eq_of_testBit_eq
  intro i
  rw [Nat.testBit_and, testBit_fieldMask, testBit_fieldMask, Nat.zero_testBit]
  by_cases hA : A.m_field_offset ≤ i ∧ i < A.m_field_offset + A.m_size
  · have hB : ¬ (B.m_field_offset ≤ i ∧ i < B.m_field_offset + B.m_size) := by omega
    simp [hB]
  · simp [hA]

/-- Where both sizes are at most 30, an insert through a field that does not
overlap A keeps the value inserted through A before. -/
theorem Field.insert_insert_extract (DType : Nat) (A B : Field)
    (hposA : 1 ≤ A.m_size) (hsA : A.m_size ≤ 30) (hfitA : A.m_field_offset + A.m_size ≤ DType)
    (hposB : 1 ≤ B.m_size) (hsB : B.m_size ≤ 30) (hfitB : B.m_field_offset + B.m_size ≤ DType)
    (hdis : A.m_field_offset + A.m_size ≤ B.m_field_offset
      ∨ B.m_field_offset + B.m_size ≤ A.m_field_offset)
    (reg_val a b : Nat) (hr : reg_val < 2 ^ DType) :
    ((A.insert DType reg_val a).bind (fun r => B.insert DType r b)).bind (A.extract DType)
      = some (a &&& (2 ^ A.m_size - 1)) := by
  rw [Field.insert_of_fit DType A hposA hsA hfitA reg_val a hr]
  simp only [Option.some_bind]
  rw [Field.insert_of_fit DType B hposB hsB hfitB _ b (inserted_lt hfitA reg_val a hr)]
  simp only [Option.some_bind]
  rw [Field.extract_of_fit DType A hposA hsA hfitA]
  congr 1
  apply Nat.eq_of_testBit_eq
  intro i
  rw [Nat.testBit_and, Nat.testBit_shiftRight, testBit_inserted hfitB, testBit_inserted hfitA,
    Nat.testBit_and, Nat.testBit_two_pow_sub_one]
  by_cases h : i < A.m_size
  · have hA : A.m_field_offset ≤ A.m_field_offset + i
        ∧ A.m_field_offset + i < A.m_field_offset + A.m_size := by omega
    have hB : ¬ (B.m_field_offset ≤ A.m_field_offset + i
        ∧ A.m_field_offset + i < B.m_field_offset + B.m_size) := by omega
    have hw : A.m_field_offset + i < DType := by omega
    simp [h, hA, hB, hw]
  · simp [h]

/-- Where both sizes are at most 30, the inserts through two fields that do not
overlap commute. -/
theorem Field.insert_comm (DType : Nat) (A B : Field)
    (hposA : 1 ≤ A.m_size) (hsA : A.m_size ≤ 30) (hfitA : A.m_field_offset + A.m_size ≤ DType)
    (hposB : 1 ≤ B.m_size) (hsB : B.m_size ≤ 30) (hfitB : B.m_field_offset + B.m_size ≤ DType)
    (hdis : A.m_field_offset + A.m_size ≤ B.m_field_offset
      ∨ B.m_field_offset + B.m_size ≤ A.m_field_offset)
    (reg_val a b : Nat) (hr : reg_val < 2 ^ DType) :
    ∃ r, (A.insert DType reg_val a).bind (fun r1 => B.insert DType r1 b) = some r ∧
      (B.insert DType reg_val b).bind (fun r1 => A.insert DType r1 a) = some r := by
  rw [Field.insert_of_fit DType A hposA hsA hfitA reg_val a hr,
    Field.insert_of_fit DType B hposB hsB hfitB reg_val b hr]
  simp only [Option.some_bind]
  rw [Field.insert_of_fit DType B hposB hsB hfitB _ b (inserted_lt hfitA reg_val a hr),
    Field.insert_of_fit DType A hposA hsA hfitA _ a (inserted_lt hfitB reg_val b hr)]
  refine ⟨_, rfl, ?_⟩
  congr 1
  apply Nat.eq_of_testBit_eq
  intro i
  rw [testBit_inserted hfitA, testBit_inserted hfitB, testBit_inserted hfitB,
    testBit_inserted hfitA]
  by_cases hA : A.m_field_offset ≤ i ∧ i < A.m_field_offset + A.m_size
  · have hB : ¬ (B.m_field_offset ≤ i ∧ i < B.m_field_offset + B.m_size) := by omega
    have hw : i < DType := by omega
    simp [hA, hB, hw]
  · by_cases hB : B.m_field_offset ≤ i ∧ i < B.m_field_offset + B.m_size
    · have hw : i < DType := by omega
      simp [hA, hB, hw]
    · simp [hA, hB]

/-- Where the size is at most 30, a second insert through the same field
overrides the first. -/
theorem Field.insert_insert (DType : Nat) (f : Field) (hpos : 1 ≤ f.m_size)
    (hs : f.m_size ≤ 30) (hfit : f.m_field_offset + f.m_size ≤ DType)
    (reg_val v1 v2 : Nat) (hr : reg_val < 2 ^ DType) :
    ∃ r, (f.insert DType reg_val v1).bind (fun r1 => f.insert DType r1 v2) = some r ∧
      f.insert DType reg_val v2 = some r := by
  rw [Field.insert_of_fit DType f hpos hs hfit reg_val v1 hr,
    Field.insert_of_fit DType f hpos hs hfit reg_val v2 hr]
  simp only [Option.some_bind]
  rw [Field.insert_of_fit DType f hpos hs hfit _ v2 (inserted_lt hfit reg_val v1 hr)]
  refine ⟨_, ?_, rfl⟩
  congr 1
  apply Nat.eq_of_testBit_eq
  intro i
  rw [testBit_inserted hfit, testBit_inserted hfit, testBit_inserted hfit]
  by_cases h : f.m_field_offset ≤ i ∧ i < f.m_field_offset + f.m_size
  · simp [h]
  · simp [h]

/-! ## Two inserts with the wide field -/

/-- C11 (fails on the code): the 40-bit field at offset 0 and the 24-bit field
at offset 40 of a 64-bit data type do not overlap, but the register mask of the
first is undefined, so the conjunction of the two masks is not 0: it has no
value. -/
theorem regMask_disjoint_wideField :
    ValidAddressOrDataType 64 ∧
    wideField.m_field_offset + wideField.m_size ≤ 64 ∧
    highField.m_field_offset + highField.m_size ≤ 64 ∧
    wideField.m_field_offset + wideField.m_size ≤ highField.m_field_offset ∧
    wideField.regMask 64 = none ∧
    highField.regMask 64 = some 0xFFFFFF0000000000 ∧
    (wideField.regMask 64).bind (fun a => (highField.regMask 64).map (fun b => a &&& b))
      = none := by
  decide

/-- C12 (fails on the code): with the 40-bit field at offset 0 and the 24-bit
field at offset 40 of a 64-bit data type, inserting through one and then
through the other is undefined in both roles, so the value inserted first is
not recovered by `extract`. -/
theorem insert_insert_extract_wideField :
    ValidAddressOrDataType 64 ∧
    wideField.m_field_offset + wideField.m_size ≤ 64 ∧
    highField.m_field_offset + highField.m_size ≤ 64 ∧
    wideField.m_field_offset + wideField.m_size ≤ highField.m_field_offset ∧
    ((wideField.insert 64 0 0x123456789A).bind (fun r => highField.insert 64 r 0xABCDEF)).bind
      (wideField.extract 64) = none ∧
    highField.insert 64 0 0xABCDEF = some 0xABCDEF0000000000 ∧
    ((highField.insert 64 0 0xABCDEF).bind (fun r => wideField.insert 64 r 0x123456789A)).bind
      (highField.extract 64) = none := by
  decide

/-- C18 (fails on the code): with the 40-bit field at offset 0 and the 24-bit
field at offset 40 of a 64-bit data type, neither order of the two inserts
yields a register word. -/
theorem insert_comm_wideField :
    ValidAddressOrDataType 64 ∧
    wideField.m_field_offset + wideField.m_size ≤ 64 ∧
    highField.m_field_offset + highField.m_size ≤ 64 ∧
    wideField.m_field_offset + wideField.m_size ≤ highField.m_field_offset ∧
    (wideField.insert 64 0x55 0x123456789A).bind (fun r => highField.insert 64 r 0xABCDEF)
      = none ∧
    (highField.insert 64 0x55 0xABCDEF).bind (fun r => wideField.insert 64 r 0x123456789A)
      = none := by
  decide

/-- C19 (fails on the code): through the 40-bit field at offset 0 of a 64-bit
data type, neither the insert of 0x11 followed by the insert of 0x22 nor the
insert of 0x22 alone yields a register word. -/
theorem insert_insert_wideField :
    ValidAddressOrDataType 64 ∧
    wideField.m_field_offset + wideField.m_size ≤ 64 ∧
    (wideField.insert 64 0xFF00000000000000 0x11).bind
      (fun r => wideField.insert 64 r 0x22) = none ∧
    wideField.insert 64 0xFF00000000000000 0x22 = none := by
  decide

/-! ## Qualified names as identifiers -/

theorem append_cons_inj_of_not_mem_tail {α : Type} {c : α} {l1 l2 : List α}
    (h1 : c ∉ l1) (h2 : c ∉ l2) :
    ∀ (xs ys : List α), xs ++ c :: l1 = ys ++ c :: l2 → xs = ys ∧ l1 = l2
  | [], [], h => by
    simp only [List.nil_append, List.cons.injEq, true_and] at h
    exact ⟨rfl, h⟩
  | [], y :: ys, h => by
    simp only [List.nil_append, List.cons_append, List.cons.injEq] at h
    exact absurd (h.2 ▸ List.mem_append_right ys (List.mem_cons_self c l2)) h1
  | x :: xs, [], h => by
    simp only [List.nil_append, List.cons_append, List.cons.injEq] at h
    exact absurd (h.2 ▸ List.mem_append_right xs (List.mem_cons_self c l1)) h2
  | x :: xs, y :: ys, h => by
    simp only [List.cons_append, List.cons.injEq] at h
    obtain ⟨h3, h4⟩ := append_cons_inj_of_not_mem_tail h1 h2 xs ys h.2
    exact ⟨by rw [h.1, h3], h4⟩

theorem dot_join_inj {P1 P2 n1 n2 : String} (h1 : '.' ∉ n1.data) (h2 : '.' ∉ n2.data)
    (h : (P1 ++ ".") ++ n1 = (P2 ++ ".") ++ n2) : P1 = P2 ∧ n1 = n2 := by
  have hd := congrArg String.data h
  simp only [String.data_append, List.append_assoc] at hd
  obtain ⟨h3, h4⟩ := append_cons_inj_of_not_mem_tail h1 h2 P1.data P2.data hd
  exact ⟨String.ext h3, String.ext h4⟩

theorem dot_join_ne {P n1 n2 : String} (h1 : '.' ∉ n1.data) : n1 ≠ (P ++ ".") ++ n2 := by
  intro h
  apply h1
  rw [h]
  simp only [String.data_append, List.mem_append]
  exact Or.inl (Or.inr (List.mem_cons_self _ _))

theorem dot_join_length (P n : String) : P.length < ((P ++ ".") ++ n).length := by
  simp only [String.length_append]
  have : ".".length = 1 := rfl
  omega

theorem fullName_inj_aux (H : List Entity) (hclosed : closedUnderParent H)
    (hsib : siblingNamesDistinct H) (hdot : namesWithoutSeparator H) :
    ∀ (n : Nat) (e1 : Entity), e1 ∈ H → ∀ e2 ∈ H, e1.fullName.length = n →
      e1.fullName = e2.fullName → e1 = e2 := by
  intro n
  induction n using Nat.strong_induction_on with
  | _ n ih =>
    intro e1 he1 e2 he2 hlen heq
    have hf1 := Entity.fullName_parent e1
    have hf2 := Entity.fullName_parent e2
    have hpar : e1.parent = e2.parent ∧ e1.name = e2.name := by
      cases hp1 : e1.parent with
      | none =>
        cases hp2 : e2.parent with
        | none =>
          rw [hp1] at hf1; rw [hp2] at hf2
          simp only at hf1 hf2
          exact ⟨rfl, by rw [← hf1, ← hf2, heq]⟩
        | some p2 =>
          rw [hp1] at hf1; rw [hp2] at hf2
          simp only at hf1 hf2
          rw [hf1, hf2] at heq
          exact absurd heq (dot_join_ne (hdot e1 he1))
      | some p1 =>
        cases hp2 : e2.parent with
        | none =>
          rw [hp1] at hf1; rw [hp2] at hf2
          simp only at hf1 hf2
          rw [hf1, hf2] at heq
          exact absurd heq.symm (dot_join_ne (hdot e2 he2))
        | some p2 =>
          rw [hp1] at hf1; rw [hp2] at hf2
          simp only at hf1 hf2
          rw [hf1, hf2] at heq
          obtain ⟨hP, hn⟩ := dot_join_inj (hdot e1 he1) (hdot e2 he2) heq
          have hlt : p1.fullName.length < n := by
            rw [← hlen, hf1]
            exact dot_join_length _ _
          have := ih _ hlt p1 (hclosed e1 he1 p1 hp1) p2 (hclosed e2 he2 p2 hp2) rfl hP
          exact ⟨by rw [this], hn⟩
    by_contra hne
    exact hsib e1 he1 e2 he2 hne hpar.1 hpar.2

/-- C15 (as amended): in a hierarchy where no two siblings share a name and no
name holds the separator ".", the qualified name identifies the entity: two
distinct entities have different qualified names. -/
theorem fullName_identifies (H : List Entity) (hclosed : closedUnderParent H)
    (hsib : siblingNamesDistinct H) (hdot : namesWithoutSeparator H) :
    fullNameIdentifies H := by
  intro e1 he1 e2 he2 hne heq
  exact hne (fullName_inj_aux H hclosed hsib hdot _ e1 he1 e2 he2 rfl heq)

/-- C15 (as stated, fails): in the hierarchy of the root blocks "A.B" and "A"
and the block "B" under "A", no two siblings share a name, yet the root block
"A.B" and the nested block "B" are distinct and both have the qualified name
"A.B". -/
theorem fullName_not_identifies_dotted :
    closedUnderParent dottedHierarchy ∧ siblingNamesDistinct dottedHierarchy ∧
    Entity.block dottedBlock ∈ dottedHierarchy ∧ Entity.block bBlock ∈ dottedHierarchy ∧
    Entity.block dottedBlock ≠ Entity.block bBlock ∧
    (Entity.block dottedBlock).fullName = "A.B" ∧ (Entity.block bBlock).fullName = "A.B" ∧
    ¬ fullNameIdentifies dottedHierarchy := by
  have hne : Entity.block dottedBlock ≠ Entity.block bBlock :=
    fun h => absurd (congrArg Entity.name h) (by decide)
  have hm1 : Entity.block dottedBlock ∈ dottedHierarchy := by simp [dottedHierarchy]
  have hm3 : Entity.block bBlock ∈ dottedHierarchy := by simp [dottedHierarchy]
  refine ⟨?_, ?_, hm1, hm3, hne, by decide, by decide, ?_⟩
  · intro e he p hp
    simp only [dottedHierarchy, List.mem_cons, List.mem_singleton, List.not_mem_nil,
      or_false] at he
    rcases he with rfl | rfl | rfl
    · exact absurd hp (by simp [Entity.parent, Block.parent, Block.base, dottedBlock])
    · exact absurd hp (by simp [Entity.parent, Block.parent, Block.base, aBlock])
    · have : p = Entity.block aBlock := by
        simp only [Entity.parent, Block.parent, Block.base, bBlock, Option.map_some',
          Option.some.injEq] at hp
        exact hp.symm
      rw [this]
      simp [dottedHierarchy]
  · intro e1 he1 e2 he2 hne12 hpar
    simp only [dottedHierarchy, List.mem_cons, List.mem_singleton, List.not_mem_nil,
      or_false] at he1 he2
    rcases he1 with rfl | rfl | rfl <;> rcases he2 with rfl | rfl | rfl
    · exact absurd rfl hne12
    · decide
    · decide
    · decide
    · exact absurd rfl hne12
    · decide
    · decide
    · decide
    · exact absurd rfl hne12
  · intro h
    exact h _ hm1 _ hm3 hne (by decide)

/-- C15 (as amended), for the hierarchy of the block "CTRL", its register
"STATUS" and the field "MODE". -/
theorem fullName_identifies_witness :
    closedUnderParent ctrlHierarchy ∧ siblingNamesDistinct ctrlHierarchy ∧
    namesWithoutSeparator ctrlHierarchy ∧ fullNameIdentifies ctrlHierarchy := by
  have hclosed : closedUnderParent ctrlHierarchy := by
    intro e he p hp
    simp only [ctrlHierarchy, List.mem_cons, List.mem_singleton, List.not_mem_nil,
      or_false] at he
    rcases he with rfl | rfl | rfl
    · exact absurd hp (by simp [Entity.parent, Block.parent, Block.base, ctrlBlock])
    · have : p = Entity.block ctrlBlock := by
        simp only [Entity.parent, Register.parent, statusRegister, Option.map_some',
          Option.some.injEq] at hp
        exact hp.symm
      rw [this]
      simp [ctrlHierarchy]
    · have : p = Entity.register statusRegister := by
        simp only [Entity.parent, Field.parent, modeField, Option.map_some',
          Option.some.injEq] at hp
        exact hp.symm
      rw [this]
      simp [ctrlHierarchy]
  have hsib : siblingNamesDistinct ctrlHierarchy := by
    intro e1 he1 e2 he2 hne12 hpar
    simp only [ctrlHierarchy, List.mem_cons, List.mem_singleton, List.not_mem_nil,
      or_false] at he1 he2
    rcases he1 with rfl | rfl | rfl <;> rcases he2 with rfl | rfl | rfl
    · exact absurd rfl hne12
    · decide
    · decide
    · decide
    · exact absurd rfl hne12
    · decide
    · decide
    · decide
    · exact absurd rfl hne12
  have hdot : namesWithoutSeparator ctrlHierarchy := by
    intro e he
    simp only [ctrlHierarchy, List.mem_cons, List.mem_singleton, List.not_mem_nil,
      or_false] at he
    rcases he with rfl | rfl | rfl <;> decide
  exact ⟨hclosed, hsib, hdot, fullName_identifies ctrlHierarchy hclosed hsib hdot⟩

end RMF
